import Mathlib

/-!
Shallow embedding of the attendance event processing engine of
`src/lib/googleSheets.ts` (row normalisation, FIFO shift pairing,
compliance classification, exception detection, aggregate calculation),
together with proofs about it.

Modelling conventions:
* JavaScript strings are modelled as lists of code points (`JStr`).
* A JavaScript `Date` is modelled by its `getTime()` value (epoch
  milliseconds).  The engine performs no timezone conversion, so the
  component accessors (`getHours`, `getMinutes`) and the calendar-day key
  `formatDateKey` (rendered by the source as a "YYYY-MM-DD" string, an
  injective function of the local calendar day) are derived arithmetically
  from the millisecond value.
* JavaScript numbers are modelled as rationals; every numeric operation
  the engine performs on them (comparison, subtraction, division by a
  constant, `Math.round`) is exact.
* `Date.now()` / `new Date()` is impure; every function that reads the
  clock takes the current instant as an explicit `now` argument.
* `toISOString` is an injective serialisation of a `Date`; fields the
  source stores as ISO strings are modelled by the underlying
  millisecond value.
* JS `Array.prototype.sort` is a stable sort (required since ES2019); it
  is modelled by `List.mergeSort` with the comparator `c` turned into the
  boolean relation `fun a b => c a b ≤ 0`.
* A JS `Map` is modelled as an association list in insertion order.
-/

abbrev JStr := List Nat

def jstr (s : String) : JStr := s.toList.map Char.toNat

/-- ASCII whitespace code points (the only ones the engine meets). -/
def isWs (c : Nat) : Bool := c = 32 || c = 9 || c = 10 || c = 13 || c = 11 || c = 12

/-- JS `String.prototype.trim`: drop leading and trailing whitespace. -/
def jsTrim (s : JStr) : JStr := ((s.dropWhile isWs).reverse.dropWhile isWs).reverse

/-- JS `toUpperCase` on one code point (ASCII range). -/
def upC (c : Nat) : Nat := if 97 ≤ c ∧ c ≤ 122 then c - 32 else c

/-- JS `toLowerCase` on one code point (ASCII range). -/
def lowC (c : Nat) : Nat := if 65 ≤ c ∧ c ≤ 90 then c + 32 else c

/-! Business rules configuration (the `CONFIG` object of googleSheets.ts). -/

namespace CONFIG

def WORK_START_HOUR : Int := 9

def WORK_START_MINUTE : Int := 0

def DISTANCE_THRESHOLD_COMPLIANT : ℚ := 50

def DISTANCE_THRESHOLD_WARNING : ℚ := 100

def OPEN_SESSION_WARNING_HOURS : ℚ := 8

def OPEN_SESSION_CRITICAL_HOURS : ℚ := 12

def LATE_GRACE_PERIOD_MINUTES : Int := 15

end CONFIG

/-- `punchType` values (`'Punch In'` / `'Punch Out'` in the source). -/
inductive PunchType where
  | punchIn
  | punchOut
deriving DecidableEq

/-- A normalised punch event (`RawPunchRecord` in the source). -/
structure RawPunchRecord where
  name : JStr
  employeeId : JStr
  punchType : PunchType
  location : JStr
  timestamp : Int
  manualLocation : JStr
  distanceMeters : Option ℚ
deriving DecidableEq

/-- `Date.prototype.getHours` in the timezone-free model. -/
def getHoursOf (t : Int) : Int := Int.emod (Int.fdiv t 3600000) 24

/-- `Date.prototype.getMinutes` in the timezone-free model. -/
def getMinutesOf (t : Int) : Int := Int.emod (Int.fdiv t 60000) 60

/-- `formatDateKey` renders the local calendar date as "YYYY-MM-DD"; with
no timezone offset that string is in bijection with the epoch-day number,
which the model uses directly as the key. -/
def formatDateKey (t : Int) : Int := Int.fdiv t 86400000

/-- JS `Math.round`: round half toward positive infinity. -/
def jsRound (q : ℚ) : Int := ⌊q + 1 / 2⌋

/-!  `normalizeEmployeeId`: trim, remove all whitespace
(`replace` of the all-whitespace-runs pattern by the empty string), fix
the known `LYLB` -> `AYLB` typo at the start of the string
(case-insensitively), then uppercase. -/

def normalizeEmployeeId (raw : JStr) : JStr :=
  if raw = [] then []
  else
    let noWs := (jsTrim raw).filter (fun c => !isWs c)
    let fixedId :=
      match noWs with
      | a :: b :: c :: d :: rest =>
        if upC a = 76 ∧ upC b = 89 ∧ upC c = 76 ∧ upC d = 66 then
          65 :: 89 :: 76 :: 66 :: rest
        else noWs
      | _ => noWs
    fixedId.map upC

/-! ### The sort and the grouping maps of `processSheetData` -/

/-- The comparator of the chronological sorts:
`(a, b) => a.timestamp.getTime() - b.timestamp.getTime()`. -/
def leTime (a b : RawPunchRecord) : Bool := decide (a.timestamp ≤ b.timestamp)

/-- One step of the insertion-ordered grouping map: append `v` to the
entry for `k`, creating the entry at the end on first sight (JS `Map`
iteration follows insertion order). -/
def upsertGroup {κ α : Type} [DecidableEq κ] (k : κ) (v : α) :
    List (κ × List α) → List (κ × List α)
  | [] => [(k, [v])]
  | (k', vs) :: rest =>
    if k = k' then (k', vs ++ [v]) :: rest
    else (k', vs) :: upsertGroup k v rest

def groupByKey {κ α : Type} [DecidableEq κ] (key : α → κ) (l : List α) :
    List (κ × List α) :=
  l.foldl (fun acc r => upsertGroup (key r) r acc) []

/-- `Map.prototype.get` on the association-list model. -/
def aget {κ α : Type} [DecidableEq κ] (k : κ) : List (κ × α) → Option α
  | [] => none
  | (k', v) :: rest => if k = k' then some v else aget k rest

/-- One step of the employee-index construction in `processSheetData`:
insert a freshly seen id with `record.name || record.employeeId`, or
upgrade a previously stored empty or id-placeholder name to a real one. -/
def empUpdate (id nm : JStr) : List (JStr × JStr) → List (JStr × JStr)
  | [] => [(id, if nm = [] then id else nm)]
  | (k, v) :: rest =>
    if k = id then
      (k, if (v = [] ∨ v = k) ∧ nm ≠ [] then nm else v) :: rest
    else (k, v) :: empUpdate id nm rest

structure ProcessedData where
  punches : List RawPunchRecord
  employees : List (JStr × JStr)
  punchesByEmployee : List (JStr × List RawPunchRecord)
  punchesByDate : List (Int × List RawPunchRecord)
  todayPunches : List RawPunchRecord

/-- `processSheetData`: stable chronological sort, then the employee
index and the groupings, built in input order over the sorted list. -/
def processSheetData (records : List RawPunchRecord) (now : Int) : ProcessedData :=
  let sortedRecords := records.mergeSort leTime
  { punches := sortedRecords
    employees := sortedRecords.foldl (fun acc r => empUpdate r.employeeId r.name acc) []
    punchesByEmployee := groupByKey (fun r => r.employeeId) sortedRecords
    punchesByDate := groupByKey (fun r => formatDateKey r.timestamp) sortedRecords
    todayPunches :=
      sortedRecords.filter (fun r => decide (formatDateKey r.timestamp = formatDateKey now)) }

/-! ### FIFO pairing and working hours (`calculateWorkingHours`) -/

/-- The inner scan of the FIFO pairing loop: the first `Punch Out` of the
list, together with the remainder after it (the cursor jump `i = j + 1`). -/
def findOut : List RawPunchRecord → Option (RawPunchRecord × List RawPunchRecord)
  | [] => none
  | q :: rest =>
    if q.punchType = PunchType.punchOut then some (q, rest) else findOut rest

theorem findOut_sublist : ∀ {l : List RawPunchRecord} {q rest},
    findOut l = some (q, rest) → List.Sublist (q :: rest) l := by
  intro l
  induction l with
  | nil => intro q rest h; simp [findOut] at h
  | cons p tl ih =>
    intro q rest h
    simp only [findOut] at h
    split at h
    · cases h; exact List.Sublist.refl _
    · exact List.Sublist.cons p (ih h)

theorem findOut_length {l : List RawPunchRecord} {q rest}
    (h : findOut l = some (q, rest)) : rest.length < l.length :=
  Nat.lt_of_succ_le (by simpa using (findOut_sublist h).length_le)

/-- The pairing loop of `calculateWorkingHours` for one employee's sorted
punches: total paired minutes and number of open sessions. -/
def pairSum : List RawPunchRecord → ℚ × Nat
  | [] => (0, 0)
  | p :: rest =>
    if p.punchType = PunchType.punchIn then
      match h : findOut rest with
      | some (q, rest') =>
        let s := pairSum rest'
        (((q.timestamp - p.timestamp : Int) : ℚ) / 60000 + s.1, s.2)
      | none =>
        let s := pairSum rest
        (s.1, s.2 + 1)
    else pairSum rest
termination_by l => l.length
decreasing_by
  · exact Nat.lt_succ_of_lt (findOut_length h)
  · exact Nat.lt_succ_self _
  · exact Nat.lt_succ_self _

/-- `calculateWorkingHours`: group by employee, sort each group
chronologically, pair FIFO; returns (totalHours, openSessions). -/
def calculateWorkingHours (punches : List RawPunchRecord) : ℚ × Nat :=
  let byEmployee := groupByKey (fun p => p.employeeId) punches
  let totals := byEmployee.foldl
    (fun acc kg =>
      let s := pairSum (kg.2.mergeSort leTime)
      (acc.1 + s.1, acc.2 + s.2)) ((0 : ℚ), (0 : Nat))
  (totals.1 / 60, totals.2)

/-- `WORK_START_HOUR * 60 + WORK_START_MINUTE + LATE_GRACE_PERIOD_MINUTES`. -/
def lateThreshold : Int :=
  CONFIG.WORK_START_HOUR * 60 + CONFIG.WORK_START_MINUTE + CONFIG.LATE_GRACE_PERIOD_MINUTES

/-- `getHours() * 60 + getMinutes()` of a punch timestamp. -/
def punchMinutesOf (t : Int) : Int := getHoursOf t * 60 + getMinutesOf t

/-- `countLateArrivals`: the first `Punch In` per employee (in insertion
order), counted when it is after work start plus grace. -/
def countLateArrivals (punches : List RawPunchRecord) : Nat :=
  let firsts := groupByKey (fun p => p.employeeId)
    (punches.filter (fun p => decide (p.punchType = PunchType.punchIn)))
  firsts.countP (fun kg =>
    match kg.2 with
    | [] => false
    | p :: _ => decide (punchMinutesOf p.timestamp > lateThreshold))

structure KPIData where
  activeEmployeesCount : Nat
  totalWorkingHoursToday : ℚ
  onSiteCompliancePct : ℚ
  exceptionsCount : Nat
  serverTimestamp : Int
deriving DecidableEq

/-- `calculateKPIs` for the window `targetDate` (the `dateStr` argument
is the parsed date key; `now` models the clock reads). -/
def calculateKPIs (data : ProcessedData) (dateStr : Option Int) (now : Int) : KPIData :=
  let targetDate := dateStr.getD (formatDateKey now)
  let dayPunches := (aget targetDate data.punchesByDate).getD []
  let activeIds :=
    (dayPunches.filter (fun p => decide (p.punchType = PunchType.punchIn))).map
      (fun p => p.employeeId)
  let wh := calculateWorkingHours dayPunches
  let punchesWithDistance := dayPunches.filter (fun p => decide (p.distanceMeters ≠ none))
  let compliantPunches := punchesWithDistance.filter (fun p =>
    match p.distanceMeters with
    | some d => decide (d ≤ CONFIG.DISTANCE_THRESHOLD_COMPLIANT)
    | none => false)
  let compliancePct : ℚ :=
    if punchesWithDistance.length > 0 then
      (jsRound (((compliantPunches.length : ℚ) / (punchesWithDistance.length : ℚ)) * 100) : ℚ)
    else 100
  let lateArrivals := countLateArrivals dayPunches
  let locationBreaches := (punchesWithDistance.filter (fun p =>
    match p.distanceMeters with
    | some d => decide (CONFIG.DISTANCE_THRESHOLD_WARNING < d)
    | none => false)).length
  { activeEmployeesCount := activeIds.dedup.length
    totalWorkingHoursToday := (jsRound (wh.1 * 10) : ℚ) / 10
    onSiteCompliancePct := compliancePct
    exceptionsCount := wh.2 + lateArrivals + locationBreaches
    serverTimestamp := now }

/-! ### Hourly activity (`calculateHourlyActivity`) -/

/-- One histogram bucket; the source's `hour` label "HH:00" is the
injective image of the hour number. -/
structure HourlyActivity where
  hour : Nat
  punchIn : Nat
  punchOut : Nat
deriving DecidableEq

def calculateHourlyActivity (data : ProcessedData) (dateStr : Option Int) (now : Int) :
    List HourlyActivity :=
  let targetDate := dateStr.getD (formatDateKey now)
  let dayPunches := (aget targetDate data.punchesByDate).getD []
  ((List.range 24).map (fun h =>
    { hour := h
      punchIn := dayPunches.countP (fun p =>
        decide (getHoursOf p.timestamp = (h : Int) ∧ p.punchType = PunchType.punchIn))
      punchOut := dayPunches.countP (fun p =>
        decide (getHoursOf p.timestamp = (h : Int) ∧ p.punchType = PunchType.punchOut)) })).filter
    (fun e => decide (6 ≤ e.hour ∧ e.hour ≤ 22))

/-! ### Top workload (`calculateTopWorkload`) -/

structure EmployeeWorkload where
  employeeId : JStr
  name : JStr
  totalHours : ℚ
deriving DecidableEq

/-- The comparator `(a, b) => b.totalHours - a.totalHours` as a
boolean relation. -/
def workloadLe (a b : EmployeeWorkload) : Bool := decide (b.totalHours - a.totalHours ≤ 0)

def calculateTopWorkload (data : ProcessedData) (dateStr : Option Int) (now : Int)
    (limit : Nat) : List EmployeeWorkload :=
  let targetDate := dateStr.getD (formatDateKey now)
  let dayPunches := (aget targetDate data.punchesByDate).getD []
  let byEmployee := groupByKey (fun p => p.employeeId) dayPunches
  let workloads := byEmployee.filterMap (fun kg =>
    (aget kg.1 data.employees).map (fun nm =>
      { employeeId := kg.1
        name := nm
        totalHours := (jsRound ((calculateWorkingHours kg.2).1 * 10) : ℚ) / 10 }))
  (workloads.mergeSort workloadLe).take limit

/-! ### Compliance classification and latest locations -/

inductive ComplianceStatus where
  | compliant
  | warning
  | breach
  | unknown
deriving DecidableEq

/-- The inline geofence classification of `calculateLatestLocations`. -/
def complianceStatusOf (d : Option ℚ) : ComplianceStatus :=
  match d with
  | none => ComplianceStatus.unknown
  | some x =>
    if x ≤ CONFIG.DISTANCE_THRESHOLD_COMPLIANT then ComplianceStatus.compliant
    else if x ≤ CONFIG.DISTANCE_THRESHOLD_WARNING then ComplianceStatus.warning
    else ComplianceStatus.breach

def isDigitCode (c : Nat) : Bool := 48 ≤ c && c ≤ 57

def digitVal (c : Nat) : Option Nat := if 48 ≤ c ∧ c ≤ 57 then some (c - 48) else none

/-- JS `parseFloat`, restricted to the decimal forms the data contains
(optional sign, digits, optional fraction; exponents and infinities are
not modelled).  `none` models `NaN`. -/
def jsParseFloat (s : JStr) : Option ℚ :=
  let s1 := s.dropWhile isWs
  let sgn : ℚ := match s1 with
    | 45 :: _ => -1
    | _ => 1
  let s2 : JStr := match s1 with
    | 45 :: rest => rest
    | 43 :: rest => rest
    | _ => s1
  let intPart := s2.takeWhile isDigitCode
  let s3 := s2.dropWhile isDigitCode
  let fracPart : JStr := match s3 with
    | 46 :: rest => rest.takeWhile isDigitCode
    | _ => []
  if intPart = [] ∧ fracPart = [] then none
  else
    let iv : Nat := intPart.foldl (fun a c => 10 * a + (c - 48)) 0
    let fv : Nat := fracPart.foldl (fun a c => 10 * a + (c - 48)) 0
    some (sgn * ((iv : ℚ) + (fv : ℚ) / (10 : ℚ) ^ fracPart.length))

/-- `parseCoordinates`: split on commas, trim, parse the first two parts. -/
def parseCoordinates (locationStr : JStr) : Option (ℚ × ℚ) :=
  if locationStr = [] then none
  else
    let parts := (locationStr.splitOn 44).map jsTrim
    match parts with
    | p0 :: p1 :: _ =>
      match jsParseFloat p0, jsParseFloat p1 with
      | some lat, some long => some (lat, long)
      | _, _ => none
    | _ => none

structure EmployeeLocation where
  employeeId : JStr
  name : JStr
  lat : ℚ
  long : ℚ
  status : ComplianceStatus
  timestamp : Int
  distance : Option ℚ
deriving DecidableEq

/-- `calculateLatestLocations`: the most recent punch per employee with
parseable coordinates, classified by `complianceStatusOf`. -/
def calculateLatestLocations (data : ProcessedData) : List EmployeeLocation :=
  data.punchesByEmployee.filterMap (fun kg => do
    let nm ← aget kg.1 data.employees
    let latest ← kg.2.getLast?
    let coords ← parseCoordinates latest.location
    some { employeeId := kg.1
           name := nm
           lat := coords.1
           long := coords.2
           status := complianceStatusOf latest.distanceMeters
           timestamp := latest.timestamp
           distance := latest.distanceMeters })

/-! ### Exception detection (`calculateExceptions`) -/

inductive ExceptionType where
  | OpenSession
  | PunchOutWithoutIn
  | LocationBreach
  | LocationMissing
deriving DecidableEq

inductive ExceptionSeverity where
  | warning
  | critical
deriving DecidableEq

inductive ExceptionStatus where
  | statusOpen
  | resolved
  | dismissed
deriving DecidableEq

/-- Injective model of the human-readable `notes` template strings. -/
inductive ExceptionNote where
  | lateArrival (minutesLate : Int)
  | openSession (hoursRounded : Int)
  | punchOutWithoutIn
  | distanceExceeds (dist : ℚ)
deriving DecidableEq

structure ExceptionRec where
  id : Nat
  employeeId : JStr
  name : JStr
  type : ExceptionType
  severity : ExceptionSeverity
  status : ExceptionStatus
  timestamp : Int
  locationText : JStr
  distance : Option ℚ
  notes : ExceptionNote
deriving DecidableEq

/-- The fields every `exceptions.push` call fills in: status `'open'`,
the triggering event's timestamp, `manualLocation || 'Unknown'`, the
event's distance.  `id` is filled in afterwards by `assignIds`. -/
def mkException (empId nm : JStr) (ty : ExceptionType) (sev : ExceptionSeverity)
    (p : RawPunchRecord) (note : ExceptionNote) : ExceptionRec :=
  { id := 0
    employeeId := empId
    name := nm
    type := ty
    severity := sev
    status := ExceptionStatus.statusOpen
    timestamp := p.timestamp
    locationText := if p.manualLocation = [] then jstr "Unknown" else p.manualLocation
    distance := p.distanceMeters
    notes := note }

/-- The source numbers exceptions with a counter starting at 1 that is
incremented at each push (before the final sort). -/
def assignIdsFrom (k : Nat) : List ExceptionRec → List ExceptionRec
  | [] => []
  | e :: rest => { e with id := k } :: assignIdsFrom (k + 1) rest

def assignIds (l : List ExceptionRec) : List ExceptionRec := assignIdsFrom 1 l

/-- The late-arrival rule: fires on the first `Punch In` of the sorted
day when it is later than work start plus grace; note the source reuses
the `'OpenSession'` type for it. -/
def lateExceptions (empId nm : JStr) (sorted : List RawPunchRecord) : List ExceptionRec :=
  match sorted.find? (fun p => decide (p.punchType = PunchType.punchIn)) with
  | none => []
  | some firstIn =>
    let punchMinutes := punchMinutesOf firstIn.timestamp
    if punchMinutes > lateThreshold then
      let minutesLate := punchMinutes - (CONFIG.WORK_START_HOUR * 60 + CONFIG.WORK_START_MINUTE)
      [mkException empId nm ExceptionType.OpenSession
        (if minutesLate > 60 then ExceptionSeverity.critical else ExceptionSeverity.warning)
        firstIn (ExceptionNote.lateArrival minutesLate)]
    else []

/-- `(Date.now() - punch.timestamp.getTime()) / (1000 * 60 * 60)`. -/
def hoursOpenAt (now t : Int) : ℚ := ((now - t : Int) : ℚ) / 3600000

/-- The cursor loop over one employee's sorted punches: open sessions
past the warning threshold, and punch-outs with no prior punch-in
(`hasPriorIn` tracks whether the scanned prefix contains a `Punch In`). -/
def scanExceptions (empId nm : JStr) (now : Int) :
    Bool → List RawPunchRecord → List ExceptionRec
  | _, [] => []
  | hasPriorIn, p :: rest =>
    if p.punchType = PunchType.punchIn then
      match h : findOut rest with
      | some (_, rest') => scanExceptions empId nm now true rest'
      | none =>
        let hoursOpen := hoursOpenAt now p.timestamp
        (if hoursOpen ≥ CONFIG.OPEN_SESSION_WARNING_HOURS then
          [mkException empId nm ExceptionType.OpenSession
            (if hoursOpen ≥ CONFIG.OPEN_SESSION_CRITICAL_HOURS then
              ExceptionSeverity.critical
            else ExceptionSeverity.warning)
            p (ExceptionNote.openSession (jsRound hoursOpen))]
        else []) ++ scanExceptions empId nm now true rest
    else
      (if hasPriorIn then []
      else
        [mkException empId nm ExceptionType.PunchOutWithoutIn ExceptionSeverity.warning
          p ExceptionNote.punchOutWithoutIn]) ++ scanExceptions empId nm now hasPriorIn rest
termination_by _ l => l.length
decreasing_by
  · exact Nat.lt_succ_of_lt (findOut_length h)
  · exact Nat.lt_succ_self _
  · exact Nat.lt_succ_self _

/-- The location-breach rule: every punch whose distance exceeds the
warning threshold; critical past the literal 200 of the source. -/
def breachExceptions (empId nm : JStr) (sorted : List RawPunchRecord) : List ExceptionRec :=
  (sorted.filter (fun p =>
    match p.distanceMeters with
    | some d => decide (CONFIG.DISTANCE_THRESHOLD_WARNING < d)
    | none => false)).map (fun p =>
      mkException empId nm ExceptionType.LocationBreach
        (match p.distanceMeters with
          | some d => if (200 : ℚ) < d then ExceptionSeverity.critical else ExceptionSeverity.warning
          | none => ExceptionSeverity.warning)
        p (ExceptionNote.distanceExceeds (p.distanceMeters.getD 0)))

/-- The final sort comparator: critical before warning, then most recent
first. -/
def excLe (a b : ExceptionRec) : Bool :=
  if a.severity = b.severity then decide (b.timestamp ≤ a.timestamp)
  else decide (a.severity = ExceptionSeverity.critical)

/-- The body of the per-employee loop of `calculateExceptions`: the
employee-map guard, then the three rule passes over the sorted punches. -/
def employeeExceptions (data : ProcessedData) (now : Int)
    (kg : JStr × List RawPunchRecord) : List ExceptionRec :=
  match aget kg.1 data.employees with
  | none => []
  | some nm =>
    let sorted := kg.2.mergeSort leTime
    lateExceptions kg.1 nm sorted
      ++ scanExceptions kg.1 nm now false sorted
      ++ breachExceptions kg.1 nm sorted

def calculateExceptions (data : ProcessedData) (dateStr : Option Int) (now : Int) :
    List ExceptionRec :=
  let targetDate := dateStr.getD (formatDateKey now)
  let dayPunches := (aget targetDate data.punchesByDate).getD []
  let byEmployee := groupByKey (fun p => p.employeeId) dayPunches
  let raw := (byEmployee.map (employeeExceptions data now)).flatten
  (assignIds raw).mergeSort excLe

/-! ### Employee shifts (`calculateEmployeeShifts`) -/

structure Shift where
  shiftStart : Int
  shiftEnd : Option Int
  durationMinutes : Option Int
  distanceStart : Option ℚ
  distanceEnd : Option ℚ
  onSiteStart : Bool
  onSiteEnd : Option Bool
deriving DecidableEq

/-- The record pushed for one pairing step (`q = none` is an open shift). -/
def mkShift (p : RawPunchRecord) (q : Option RawPunchRecord) : Shift :=
  { shiftStart := p.timestamp
    shiftEnd := q.map (fun e => e.timestamp)
    durationMinutes := q.map (fun e => jsRound (((e.timestamp - p.timestamp : Int) : ℚ) / 60000))
    distanceStart := p.distanceMeters
    distanceEnd := q.bind (fun e => e.distanceMeters)
    onSiteStart :=
      match p.distanceMeters with
      | some d => decide (d ≤ CONFIG.DISTANCE_THRESHOLD_COMPLIANT)
      | none => false
    onSiteEnd :=
      match q with
      | none => none
      | some e =>
        match e.distanceMeters with
        | some d => some (decide (d ≤ CONFIG.DISTANCE_THRESHOLD_COMPLIANT))
        | none => none }

/-- The FIFO pairing loop of `calculateEmployeeShifts`. -/
def shiftScan : List RawPunchRecord → List Shift
  | [] => []
  | p :: rest =>
    if p.punchType = PunchType.punchIn then
      match h : findOut rest with
      | some (q, rest') => mkShift p (some q) :: shiftScan rest'
      | none => mkShift p none :: shiftScan rest
    else shiftScan rest
termination_by l => l.length
decreasing_by
  · exact Nat.lt_succ_of_lt (findOut_length h)
  · exact Nat.lt_succ_self _
  · exact Nat.lt_succ_self _

/-- `end.setHours(23, 59, 59, 999)` in the timezone-free model. -/
def endOfDayMs (t : Int) : Int := t - Int.emod t 86400000 + 86399999

/-- `calculateEmployeeShifts`; `startDate` / `endDate` are the parsed
`new Date(...)` values of the optional bounds. -/
def calculateEmployeeShifts (data : ProcessedData) (employeeId : JStr)
    (startDate endDate : Option Int) (now : Int) : List Shift :=
  let empPunches := (aget employeeId data.punchesByEmployee).getD []
  let filtered :=
    if startDate = none ∧ endDate = none then empPunches
    else
      let start := startDate.getD 0
      let eDay := endOfDayMs (endDate.getD now)
      empPunches.filter (fun p => decide (start ≤ p.timestamp ∧ p.timestamp ≤ eDay))
  (shiftScan (filtered.mergeSort leTime)).reverse

/-! ### Row normalisation (`parseRow` and `parseTimestamp`)

The day-first pattern of `parseTimestamp` is the regular expression
`(dd?)/(dd?)/(dddd)\s+(dd?):(dd):?(dd)?` searched from the leftmost
position.  Each one-or-two-digit group is followed by a fixed literal
separator, so for this pattern the backtracking search is equivalent to
the deterministic matcher below: at each start position take two digits
when the next character is the separator, else one digit when the next
character is the separator, else fail and retry one position further
right. -/

/-- Exactly two digits. -/
def grab2 : JStr → Option (Nat × JStr)
  | a :: b :: rest =>
    match digitVal a, digitVal b with
    | some va, some vb => some (10 * va + vb, rest)
    | _, _ => none
  | _ => none

/-- Exactly four digits. -/
def grab4 : JStr → Option (Nat × JStr)
  | a :: b :: c :: d :: rest =>
    match digitVal a, digitVal b, digitVal c, digitVal d with
    | some va, some vb, some vc, some vd =>
      some (1000 * va + 100 * vb + 10 * vc + vd, rest)
    | _, _, _, _ => none
  | _ => none

/-- One or two digits followed by the separator `sep` (which is consumed). -/
def grab2or1Sep (sep : Nat) : JStr → Option (Nat × JStr)
  | a :: b :: c :: rest =>
    match digitVal a, digitVal b with
    | some va, some vb => if c = sep then some (10 * va + vb, rest) else none
    | some va, none => if b = sep then some (va, c :: rest) else none
    | none, _ => none
  | [a, b] =>
    match digitVal a, digitVal b with
    | some _, some _ => none
    | some va, none => if b = sep then some (va, []) else none
    | none, _ => none
  | _ => none

/-- One or more whitespace characters, consumed greedily. -/
def skipWs1 (l : JStr) : Option JStr :=
  match l with
  | c :: rest => if isWs c then some (rest.dropWhile isWs) else none
  | [] => none

structure DMY where
  day : Nat
  month : Nat
  year : Nat
  hour : Nat
  minute : Nat
  second : Nat
deriving DecidableEq

/-- Match the day-first pattern at the current position. -/
def matchDMYAt (l : JStr) : Option DMY := do
  let (day, l) ← grab2or1Sep 47 l
  let (month, l) ← grab2or1Sep 47 l
  let (year, l) ← grab4 l
  let l ← skipWs1 l
  let (hour, l) ← grab2or1Sep 58 l
  let (minute, l) ← grab2 l
  let l2 : JStr := match l with
    | 58 :: rest => rest
    | _ => l
  let second : Nat := match grab2 l2 with
    | some (v, _) => v
    | none => 0
  pure { day := day, month := month, year := year, hour := hour, minute := minute,
         second := second }

/-- Leftmost match of the day-first pattern. -/
def findDMY : JStr → Option DMY
  | [] => none
  | c :: rest =>
    match matchDMYAt (c :: rest) with
    | some r => some r
    | none => findDMY rest

/-- Days from 1970-01-01 of a civil date (m is 1-based); a `d` outside
the month's range extrapolates linearly, exactly as the JS `Date`
constructor normalises overflowing day components. -/
def daysFromCivil (y m d : Int) : Int :=
  let y' := if m ≤ 2 then y - 1 else y
  let era := Int.fdiv y' 400
  let yoe := y' - era * 400
  let mp := Int.emod (m + 9) 12
  let doy := Int.fdiv (153 * mp + 2) 5 + d - 1
  let doe := yoe * 365 + Int.fdiv yoe 4 - Int.fdiv yoe 100 + doy
  era * 146097 + doe - 719468

/-- `new Date(year, month0, day, hour, minute, second).getTime()` in the
timezone-free model; `month0` is 0-based, overflowing components
normalise arithmetically, and two-digit years map to 1900+y, as in JS. -/
def mkTime (year month0 day hour minute second : Int) : Int :=
  let year' := if 0 ≤ year ∧ year ≤ 99 then year + 1900 else year
  let y := year' + Int.fdiv month0 12
  let m := Int.emod month0 12 + 1
  daysFromCivil y m day * 86400000 + hour * 3600000 + minute * 60000 + second * 1000

def daysInMonth (y m : Int) : Int :=
  if m = 2 then
    if Int.emod y 4 = 0 ∧ (Int.emod y 100 ≠ 0 ∨ Int.emod y 400 = 0) then 29 else 28
  else if m = 4 ∨ m = 6 ∨ m = 9 ∨ m = 11 then 30
  else 31

/-- Model of `new Date(raw)` for the strict ISO forms admitted by the
fallback branch's guard: `YYYY-MM-DD`, optionally followed by `THH:MM` or
`THH:MM:SS`; out-of-range fields give an invalid date, i.e. `none`. -/
def parseISODate (raw : JStr) : Option Int := do
  let (y, l) ← grab4 raw
  let l ← match l with | 45 :: rest => some rest | _ => none
  let (m, l) ← grab2 l
  let l ← match l with | 45 :: rest => some rest | _ => none
  let (d, l) ← grab2 l
  if 1 ≤ m ∧ m ≤ 12 ∧ 1 ≤ d ∧ (d : Int) ≤ daysInMonth (y : Int) (m : Int) then
    match l with
    | [] => pure (mkTime (y : Int) ((m : Int) - 1) (d : Int) 0 0 0)
    | 84 :: rest => do
      let (h, l2) ← grab2 rest
      let l2 ← match l2 with | 58 :: r => some r | _ => none
      let (mi, l2) ← grab2 l2
      let s ← match l2 with
        | [] => some 0
        | 58 :: r => do
          let (sv, r2) ← grab2 r
          if r2 = [] then some sv else none
        | _ => none
      if h ≤ 23 ∧ mi ≤ 59 ∧ s ≤ 59 then
        pure (mkTime (y : Int) ((m : Int) - 1) (d : Int) (h : Int) (mi : Int) (s : Int))
      else none
    | _ => none
  else none

/-- `parseTimestamp`: the day-first pattern is tried first; a match whose
day/month fail the range check falls through to the ISO attempt, as does
the absence of a match. -/
def parseTimestamp (raw : JStr) : Option Int :=
  if raw = [] then none
  else
    match findDMY raw with
    | some r =>
      if 1 ≤ r.day ∧ r.day ≤ 31 ∧ 1 ≤ r.month ∧ r.month ≤ 12 then
        some (mkTime (r.year : Int) ((r.month : Int) - 1) (r.day : Int) (r.hour : Int)
          (r.minute : Int) (r.second : Int))
      else parseISODate raw
    | none => parseISODate raw

/-- The column-name-to-index map resolved from the header row; -1 marks
a missing column. -/
structure ColumnMap where
  name : Int
  employeeId : Int
  punchType : Int
  location : Int
  timestamp : Int
  manualLocation : Int
  distance : Int

/-- `values[i] || ''`: any out-of-range index (including the -1 of a
missing column) yields the empty string. -/
def getField (values : List JStr) (i : Int) : JStr :=
  if i < 0 then [] else values.getD i.toNat []

/-- Case-insensitive substring search for "out" (the permissive punch
type classifier `punchTypeRaw.toLowerCase().includes('out')`). -/
def hasOutAt : JStr → Bool
  | 111 :: 117 :: 116 :: _ => true
  | _ :: rest => hasOutAt rest
  | [] => false

def containsOut (s : JStr) : Bool := hasOutAt (s.map lowC)

/-- `parseRow`: zero or one event from one row's field values.  Rows with
an empty name, an empty normalised employee id, an empty timestamp field
or an unparseable timestamp are dropped. -/
def parseRow (values : List JStr) (columnMap : ColumnMap) : Option RawPunchRecord :=
  let name := getField values columnMap.name
  let employeeIdRaw := getField values columnMap.employeeId
  let punchTypeRaw := getField values columnMap.punchType
  let timestampRaw := getField values columnMap.timestamp
  let employeeId := normalizeEmployeeId employeeIdRaw
  if name = [] ∨ employeeId = [] ∨ timestampRaw = [] then none
  else
    let punchType := if containsOut punchTypeRaw then PunchType.punchOut else PunchType.punchIn
    match parseTimestamp timestampRaw with
    | none => none
    | some timestamp =>
      let distanceRaw := getField values columnMap.distance
      let distanceMeters := if distanceRaw = [] then none else jsParseFloat distanceRaw
      some
        { name := jsTrim name
          employeeId := employeeId
          punchType := punchType
          location := getField values columnMap.location
          timestamp := timestamp
          manualLocation := getField values columnMap.manualLocation
          distanceMeters := distanceMeters }

/-! ### Lemmas on the grouping maps -/

theorem aget_upsertGroup {κ α : Type} [DecidableEq κ] (k k' : κ) (v : α)
    (m : List (κ × List α)) :
    (aget k (upsertGroup k' v m)).getD [] =
      (aget k m).getD [] ++ (if k = k' then [v] else []) := by
  induction m with
  | nil =>
    by_cases h : k = k' <;> simp [upsertGroup, aget, h]
  | cons kv rest ih =>
    obtain ⟨k₀, vs⟩ := kv
    by_cases h1 : k' = k₀
    · subst h1
      by_cases h2 : k = k' <;> simp [upsertGroup, aget, h2]
    · by_cases h2 : k = k₀
      · subst h2
        have h1' : ¬k = k' := fun hh => h1 hh.symm
        simp [upsertGroup, aget, h1, h1']
      · simp [upsertGroup, aget, h1, h2, ih]

theorem aget_foldl_upsertGroup {κ α : Type} [DecidableEq κ] (key : α → κ) (k : κ) :
    ∀ (l : List α) (acc : List (κ × List α)),
      (aget k (l.foldl (fun acc r => upsertGroup (key r) r acc) acc)).getD [] =
        (aget k acc).getD [] ++ l.filter (fun x => decide (key x = k))
  | [], acc => by simp
  | x :: t, acc => by
    simp only [List.foldl_cons, List.filter_cons]
    rw [aget_foldl_upsertGroup key k t (upsertGroup (key x) x acc), aget_upsertGroup]
    by_cases h : key x = k
    · simp [h, eq_comm]
    · have h' : ¬k = key x := fun hh => h hh.symm
      simp [h, h']

/-- A group of the repository's grouping map is exactly the (order
preserving) filter of the input at that key. -/
theorem aget_groupByKey {κ α : Type} [DecidableEq κ] (key : α → κ) (l : List α) (k : κ) :
    (aget k (groupByKey key l)).getD [] = l.filter (fun x => decide (key x = k)) := by
  simpa [groupByKey, aget] using aget_foldl_upsertGroup key k l []

theorem mem_of_aget_groupByKey {κ α : Type} [DecidableEq κ] {key : α → κ}
    {l : List α} {k : κ} {g : List α} (h : aget k (groupByKey key l) = some g) :
    ∀ x ∈ g, x ∈ l ∧ key x = k := by
  intro x hx
  have hg : x ∈ l.filter (fun x => decide (key x = k)) := by
    rw [← aget_groupByKey key l k, h]; simpa using hx
  exact ⟨List.mem_of_mem_filter hg, by simpa using List.of_mem_filter hg⟩

theorem keys_upsertGroup {κ α : Type} [DecidableEq κ] (k : κ) (v : α)
    (m : List (κ × List α)) :
    (upsertGroup k v m).map Prod.fst =
      if k ∈ m.map Prod.fst then m.map Prod.fst else m.map Prod.fst ++ [k] := by
  induction m with
  | nil => simp [upsertGroup]
  | cons kv rest ih =>
    obtain ⟨k₀, vs⟩ := kv
    by_cases h : k = k₀
    · subst h; simp [upsertGroup]
    · by_cases h2 : k ∈ rest.map Prod.fst
      · simp [upsertGroup, h, ih, h2]
      · simp [upsertGroup, h, ih, h2]

theorem nodup_keys_upsertGroup {κ α : Type} [DecidableEq κ] (k : κ) (v : α)
    {m : List (κ × List α)} (h : (m.map Prod.fst).Nodup) :
    ((upsertGroup k v m).map Prod.fst).Nodup := by
  rw [keys_upsertGroup]
  by_cases hk : k ∈ m.map Prod.fst
  · simpa [hk] using h
  · simp only [hk, if_false]
    exact List.Nodup.append h (List.nodup_singleton k) (by simpa using hk)

theorem nodup_keys_foldl {κ α : Type} [DecidableEq κ] (key : α → κ) :
    ∀ (l : List α) (acc : List (κ × List α)), ((acc.map Prod.fst).Nodup) →
      (((l.foldl (fun acc r => upsertGroup (key r) r acc) acc)).map Prod.fst).Nodup
  | [], acc => fun h => h
  | x :: t, acc => fun h => by
    simpa using nodup_keys_foldl key t (upsertGroup (key x) x acc)
      (nodup_keys_upsertGroup (key x) x h)

theorem nodup_keys_groupByKey {κ α : Type} [DecidableEq κ] (key : α → κ) (l : List α) :
    ((groupByKey key l).map Prod.fst).Nodup :=
  nodup_keys_foldl key l [] (by simp)

theorem aget_of_mem_nodup {κ α : Type} [DecidableEq κ] {m : List (κ × α)} {k : κ} {g : α}
    (hnd : (m.map Prod.fst).Nodup) (hm : (k, g) ∈ m) : aget k m = some g := by
  induction m with
  | nil => simp at hm
  | cons kv rest ih =>
    obtain ⟨k₀, v₀⟩ := kv
    rcases List.mem_cons.mp hm with h | h
    · cases h; simp [aget]
    · have hk : k ≠ k₀ := by
        intro he; subst he
        have hmem : k ∈ rest.map Prod.fst := List.mem_map.mpr ⟨(k, g), h, rfl⟩
        rw [List.map_cons, List.nodup_cons] at hnd
        exact hnd.1 hmem
      simp only [aget, if_neg hk]
      refine ih ?_ h
      rw [List.map_cons, List.nodup_cons] at hnd
      exact hnd.2

theorem length_foldl_upsertGroup {κ α : Type} [DecidableEq κ] (key : α → κ) :
    ∀ (l : List α) (acc : List (κ × List α)), ((acc.map Prod.fst).Nodup) →
      (l.foldl (fun acc r => upsertGroup (key r) r acc) acc).length =
        ((acc.map Prod.fst).toFinset ∪ (l.map key).toFinset).card
  | [], acc => fun h => by
    simp [List.toFinset_card_of_nodup h]
  | x :: t, acc => fun h => by
    rw [List.foldl_cons,
      length_foldl_upsertGroup key t _ (nodup_keys_upsertGroup (key x) x h)]
    congr 1
    rw [keys_upsertGroup]
    by_cases hk : key x ∈ acc.map Prod.fst
    · rw [if_pos hk]
      ext a
      by_cases ha : a = key x <;> simp [ha, hk]
    · rw [if_neg hk]
      ext a
      by_cases ha : a = key x <;> simp [ha, hk]

/-- The grouping map has one entry per distinct key of the input. -/
theorem length_groupByKey {κ α : Type} [DecidableEq κ] (key : α → κ) (l : List α) :
    (groupByKey key l).length = (l.map key).dedup.length := by
  have := length_foldl_upsertGroup key l [] (by simp)
  simpa [groupByKey, List.card_toFinset] using this

theorem length_filterMap_of_some {α β : Type} {f : α → Option β} :
    ∀ {l : List α}, (∀ x ∈ l, (f x).isSome) → (l.filterMap f).length = l.length
  | [], _ => rfl
  | x :: t, h => by
    rcases Option.isSome_iff_exists.mp (h x (List.mem_cons_self x t)) with ⟨y, hy⟩
    rw [List.filterMap_cons, hy]
    simp only [List.length_cons]
    rw [length_filterMap_of_some (fun z hz => h z (List.mem_cons_of_mem x hz))]

/-! ### Lemmas on the employee index -/

theorem aget_empUpdate_self (id nm : JStr) :
    ∀ (m : List (JStr × JStr)), (aget id (empUpdate id nm m)).isSome
  | [] => by simp [empUpdate, aget]
  | (k, v) :: rest => by
    by_cases h : k = id
    · subst h; simp [empUpdate, aget]
    · have h' : ¬id = k := fun hh => h hh.symm
      simpa [empUpdate, aget, h, h'] using aget_empUpdate_self id nm rest

theorem aget_empUpdate_mono {k : JStr} (id nm : JStr) :
    ∀ {m : List (JStr × JStr)}, (aget k m).isSome → (aget k (empUpdate id nm m)).isSome := by
  intro m
  induction m with
  | nil => intro h; simp [aget] at h
  | cons kv rest ih =>
    obtain ⟨k₀, v⟩ := kv
    intro h
    by_cases h0 : k₀ = id
    · subst h0
      by_cases hk : k = k₀
      · subst hk; simp [empUpdate, aget]
      · simp only [aget, if_neg hk] at h
        simpa [empUpdate, aget, hk] using h
    · by_cases hk : k = k₀
      · subst hk; simp [empUpdate, aget, h0]
      · simp only [aget, if_neg hk] at h
        simpa [empUpdate, aget, h0, hk] using ih h

theorem aget_foldl_empUpdate_mono {k : JStr} :
    ∀ (l : List RawPunchRecord) (acc : List (JStr × JStr)), (aget k acc).isSome →
      (aget k (l.foldl (fun acc r => empUpdate r.employeeId r.name acc) acc)).isSome
  | [], _ => fun h => h
  | x :: t, acc => fun h =>
    aget_foldl_empUpdate_mono t _ (aget_empUpdate_mono x.employeeId x.name h)

/-- Every record's id has an entry in the employee index. -/
theorem aget_employees_of_mem :
    ∀ (l : List RawPunchRecord) (acc : List (JStr × JStr)) (r : RawPunchRecord), r ∈ l →
      (aget r.employeeId
        (l.foldl (fun acc x => empUpdate x.employeeId x.name acc) acc)).isSome
  | [], _, r => by simp
  | x :: t, acc, r => fun h => by
    rcases List.mem_cons.mp h with h | h
    · subst h
      exact aget_foldl_empUpdate_mono t _ (aget_empUpdate_self _ _ acc)
    · exact aget_employees_of_mem t _ r h

/-! ### Lemmas on exception emission -/

theorem mem_assignIdsFrom {x : ExceptionRec} :
    ∀ {k : Nat} {l : List ExceptionRec}, x ∈ assignIdsFrom k l →
      ∃ y ∈ l, ∃ j, x = { y with id := j } := by
  intro k l
  induction l generalizing k with
  | nil => intro h; simp [assignIdsFrom] at h
  | cons e rest ih =>
    intro h
    rcases List.mem_cons.mp h with h | h
    · exact ⟨e, List.mem_cons_self e rest, k, h⟩
    · rcases ih h with ⟨y, hy, j, hj⟩
      exact ⟨y, List.mem_cons_of_mem e hy, j, hj⟩

theorem countP_assignIdsFrom (p : ExceptionRec → Bool)
    (hp : ∀ (y : ExceptionRec) (j : Nat), p { y with id := j } = p y) :
    ∀ (k : Nat) (l : List ExceptionRec), (assignIdsFrom k l).countP p = l.countP p := by
  intro k l
  induction l generalizing k with
  | nil => rfl
  | cons e rest ih => simp [assignIdsFrom, List.countP_cons, hp, ih]

theorem mem_lateExceptions {empId nm : JStr} {sorted : List RawPunchRecord}
    {x : ExceptionRec} (h : x ∈ lateExceptions empId nm sorted) :
    x.employeeId = empId ∧ x.type = ExceptionType.OpenSession := by
  unfold lateExceptions at h
  cases hf : sorted.find? (fun p => decide (p.punchType = PunchType.punchIn)) with
  | none => rw [hf] at h; simp at h
  | some firstIn =>
    rw [hf] at h
    dsimp only at h
    by_cases hl : punchMinutesOf firstIn.timestamp > lateThreshold
    · rw [if_pos hl] at h
      rcases List.mem_singleton.mp h with rfl
      exact ⟨rfl, rfl⟩
    · rw [if_neg hl] at h
      simp at h

theorem mem_scanExceptions {empId nm : JStr} {now : Int} {x : ExceptionRec} :
    ∀ {b : Bool} {l : List RawPunchRecord}, x ∈ scanExceptions empId nm now b l →
      x.employeeId = empId ∧
        (x.type = ExceptionType.OpenSession ∨ x.type = ExceptionType.PunchOutWithoutIn) := by
  intro b l
  induction b, l using scanExceptions.induct empId nm now with
  | case1 => intro h; simp [scanExceptions] at h
  | case2 b p rest hIn q rest' hfind ih =>
    intro h
    rw [scanExceptions, if_pos hIn, hfind] at h
    exact ih h
  | case3 b p rest hIn hfind ih =>
    intro h
    rw [scanExceptions, if_pos hIn, hfind] at h
    rcases List.mem_append.mp h with h | h
    · split at h
      · rcases List.mem_singleton.mp h with rfl
        exact ⟨rfl, Or.inl rfl⟩
      · simp at h
    · exact ih h
  | case4 b p rest hIn ih =>
    intro h
    rw [scanExceptions, if_neg hIn] at h
    rcases List.mem_append.mp h with h | h
    · split at h
      · simp at h
      · rcases List.mem_singleton.mp h with rfl
        exact ⟨rfl, Or.inr rfl⟩
    · exact ih h

theorem mem_breachExceptions {empId nm : JStr} {sorted : List RawPunchRecord}
    {x : ExceptionRec} (h : x ∈ breachExceptions empId nm sorted) :
    x.employeeId = empId ∧ x.type = ExceptionType.LocationBreach := by
  unfold breachExceptions at h
  rcases List.mem_map.mp h with ⟨p, _, rfl⟩
  exact ⟨rfl, rfl⟩

theorem mem_employeeExceptions {data : ProcessedData} {now : Int}
    {kg : JStr × List RawPunchRecord} {x : ExceptionRec}
    (h : x ∈ employeeExceptions data now kg) :
    x.employeeId = kg.1 ∧
      (x.type = ExceptionType.OpenSession ∨ x.type = ExceptionType.PunchOutWithoutIn ∨
        x.type = ExceptionType.LocationBreach) := by
  unfold employeeExceptions at h
  cases hn : aget kg.1 data.employees with
  | none => rw [hn] at h; simp at h
  | some nm =>
    rw [hn] at h
    simp only [List.mem_append] at h
    rcases h with (h | h) | h
    · rcases mem_lateExceptions h with ⟨h1, h2⟩
      exact ⟨h1, Or.inl h2⟩
    · rcases mem_scanExceptions h with ⟨h1, h2⟩
      rcases h2 with h2 | h2
      · exact ⟨h1, Or.inl h2⟩
      · exact ⟨h1, Or.inr (Or.inl h2)⟩
    · rcases mem_breachExceptions h with ⟨h1, h2⟩
      exact ⟨h1, Or.inr (Or.inr h2)⟩

/-! ### Claim C3: the compliance classification -/

/-- C3: for every event, the compliance classification is `unknown` when
the distance is absent, `compliant` when it is at most the compliant
threshold (50), `warning` above that and at most the warning threshold
(100), `breach` beyond it; in particular 25 ↦ compliant, 75 ↦ warning
and 150 ↦ breach. -/
theorem C3_compliance_classification (x : ℚ) :
    CONFIG.DISTANCE_THRESHOLD_COMPLIANT = 50 ∧
    CONFIG.DISTANCE_THRESHOLD_WARNING = 100 ∧
    complianceStatusOf none = ComplianceStatus.unknown ∧
    (x ≤ CONFIG.DISTANCE_THRESHOLD_COMPLIANT →
      complianceStatusOf (some x) = ComplianceStatus.compliant) ∧
    (CONFIG.DISTANCE_THRESHOLD_COMPLIANT < x → x ≤ CONFIG.DISTANCE_THRESHOLD_WARNING →
      complianceStatusOf (some x) = ComplianceStatus.warning) ∧
    (CONFIG.DISTANCE_THRESHOLD_WARNING < x →
      complianceStatusOf (some x) = ComplianceStatus.breach) ∧
    complianceStatusOf (some 25) = ComplianceStatus.compliant ∧
    complianceStatusOf (some 75) = ComplianceStatus.warning ∧
    complianceStatusOf (some 150) = ComplianceStatus.breach := by
  refine ⟨rfl, rfl, rfl, ?_, ?_, ?_, by norm_num [complianceStatusOf,
    CONFIG.DISTANCE_THRESHOLD_COMPLIANT, CONFIG.DISTANCE_THRESHOLD_WARNING],
    by norm_num [complianceStatusOf, CONFIG.DISTANCE_THRESHOLD_COMPLIANT,
      CONFIG.DISTANCE_THRESHOLD_WARNING],
    by norm_num [complianceStatusOf, CONFIG.DISTANCE_THRESHOLD_COMPLIANT,
      CONFIG.DISTANCE_THRESHOLD_WARNING]⟩
  · intro h
    simp [complianceStatusOf, h]
  · intro h1 h2
    have h1' : ¬x ≤ CONFIG.DISTANCE_THRESHOLD_COMPLIANT := not_le.mpr h1
    simp [complianceStatusOf, h1', h2]
  · intro h
    have h1 : ¬x ≤ CONFIG.DISTANCE_THRESHOLD_COMPLIANT := by
      simp only [CONFIG.DISTANCE_THRESHOLD_COMPLIANT]
      simp only [CONFIG.DISTANCE_THRESHOLD_WARNING] at h
      push_neg; linarith
    have h2 : ¬x ≤ CONFIG.DISTANCE_THRESHOLD_WARNING := not_le.mpr h
    simp [complianceStatusOf, h1, h2]

theorem C3_compliance_classification_witness :
    complianceStatusOf (some 25) = ComplianceStatus.compliant ∧
    complianceStatusOf (some 75) = ComplianceStatus.warning ∧
    complianceStatusOf (some 150) = ComplianceStatus.breach ∧
    complianceStatusOf none = ComplianceStatus.unknown :=
  ⟨(C3_compliance_classification 25).2.2.2.1 (by norm_num [CONFIG.DISTANCE_THRESHOLD_COMPLIANT]),
   (C3_compliance_classification 75).2.2.2.2.1
     (by norm_num [CONFIG.DISTANCE_THRESHOLD_COMPLIANT])
     (by norm_num [CONFIG.DISTANCE_THRESHOLD_WARNING]),
   (C3_compliance_classification 150).2.2.2.2.2.1
     (by norm_num [CONFIG.DISTANCE_THRESHOLD_WARNING]),
   (C3_compliance_classification 0).2.2.1⟩

/-! ### Claim C9: identifier normalisation -/

theorem filter_dropWhile_not (p : Nat → Bool) (l : JStr) :
    (l.dropWhile p).filter (fun c => !p c) = l.filter (fun c => !p c) := by
  induction l with
  | nil => rfl
  | cons c t ih =>
    by_cases h : p c
    · simp [List.dropWhile_cons, h, List.filter_cons, ih]
    · simp [List.dropWhile_cons, h, List.filter_cons]

theorem filter_jsTrim (s : JStr) :
    (jsTrim s).filter (fun c => !isWs c) = s.filter (fun c => !isWs c) := by
  unfold jsTrim
  rw [List.filter_reverse, filter_dropWhile_not, List.filter_reverse,
    List.reverse_reverse, filter_dropWhile_not]

/-- The typo fix as it acts on an already-uppercased string. -/
def fixTypoU (u : JStr) : JStr :=
  match u with
  | a :: b :: c :: d :: rest =>
    if a = 76 ∧ b = 89 ∧ c = 76 ∧ d = 66 then 65 :: 89 :: 76 :: 66 :: rest else u
  | _ => u

theorem upC_upC (c : Nat) : upC (upC c) = upC c := by
  unfold upC
  by_cases h : 97 ≤ c ∧ c ≤ 122
  · rw [if_pos h, if_neg (by omega)]
  · rw [if_neg h, if_neg h]

theorem isWs_upC_of {c : Nat} (h : isWs c = false) : isWs (upC c) = false := by
  unfold upC
  by_cases hc : 97 ≤ c ∧ c ≤ 122
  · rw [if_pos hc]
    simp only [isWs, Bool.or_eq_false_iff, decide_eq_false_iff_not]
    omega
  · rw [if_neg hc]; exact h

theorem normalizeEmployeeId_eq (raw : JStr) :
    normalizeEmployeeId raw = fixTypoU ((raw.filter (fun c => !isWs c)).map upC) := by
  unfold normalizeEmployeeId
  by_cases hr : raw = []
  · subst hr; simp [fixTypoU]
  · rw [if_neg hr]
    simp only [filter_jsTrim]
    rcases hu : raw.filter (fun c => !isWs c) with _ | ⟨a, _ | ⟨b, _ | ⟨c, _ | ⟨d, rest⟩⟩⟩⟩ <;>
      simp only [fixTypoU, List.map_cons, List.map_nil]
    by_cases hcond : upC a = 76 ∧ upC b = 89 ∧ upC c = 76 ∧ upC d = 66
    · rw [if_pos hcond, if_pos hcond]
      simp [upC]
    · rw [if_neg hcond, if_neg hcond]
      simp [List.map_cons]

theorem mem_fixTypoU {x : Nat} {u : JStr} (h : x ∈ fixTypoU u) :
    x ∈ u ∨ x = 65 ∨ x = 89 ∨ x = 76 ∨ x = 66 := by
  rcases u with _ | ⟨a, _ | ⟨b, _ | ⟨c, _ | ⟨d, rest⟩⟩⟩⟩
  · exact Or.inl h
  · exact Or.inl h
  · exact Or.inl h
  · exact Or.inl h
  · by_cases hcond : a = 76 ∧ b = 89 ∧ c = 76 ∧ d = 66
    · rw [show fixTypoU (a :: b :: c :: d :: rest) = 65 :: 89 :: 76 :: 66 :: rest from by
        simp only [fixTypoU, if_pos hcond]] at h
      simp only [List.mem_cons] at h
      rcases h with rfl | rfl | rfl | rfl | h
      · exact Or.inr (Or.inl rfl)
      · exact Or.inr (Or.inr (Or.inl rfl))
      · exact Or.inr (Or.inr (Or.inr (Or.inl rfl)))
      · exact Or.inr (Or.inr (Or.inr (Or.inr rfl)))
      · exact Or.inl (by simp [h])
    · rw [show fixTypoU (a :: b :: c :: d :: rest) = a :: b :: c :: d :: rest from by
        simp only [fixTypoU, if_neg hcond]] at h
      exact Or.inl h

theorem map_self {f : Nat → Nat} : ∀ {l : JStr}, (∀ x ∈ l, f x = x) → l.map f = l
  | [], _ => rfl
  | x :: t, h => by
    rw [List.map_cons, h x (List.mem_cons_self x t),
      map_self (fun z hz => h z (List.mem_cons_of_mem x hz))]

theorem fixTypoU_fixTypoU (u : JStr) : fixTypoU (fixTypoU u) = fixTypoU u := by
  rcases u with _ | ⟨a, _ | ⟨b, _ | ⟨c, _ | ⟨d, rest⟩⟩⟩⟩ <;> try rfl
  by_cases hcond : a = 76 ∧ b = 89 ∧ c = 76 ∧ d = 66
  · simp only [fixTypoU, if_pos hcond]
    norm_num
  · simp only [fixTypoU, if_neg hcond]

/-- C9: identifier spellings that differ only by letter case or
whitespace (that is: agree after removing whitespace and uppercasing)
normalise to the same canonical id, and normalisation is idempotent. -/
theorem C9_normalization (s t : JStr) :
    ((s.filter (fun c => !isWs c)).map upC = (t.filter (fun c => !isWs c)).map upC →
      normalizeEmployeeId s = normalizeEmployeeId t) ∧
    normalizeEmployeeId (normalizeEmployeeId s) = normalizeEmployeeId s := by
  constructor
  · intro h
    rw [normalizeEmployeeId_eq, normalizeEmployeeId_eq, h]
  · have hmem : ∀ x ∈ normalizeEmployeeId s, isWs x = false ∧ upC x = x := by
      intro x hx
      rw [normalizeEmployeeId_eq] at hx
      rcases mem_fixTypoU hx with hx | hx | hx | hx | hx
      · rcases List.mem_map.mp hx with ⟨y, hy, rfl⟩
        have hyw : isWs y = false := by
          have := List.of_mem_filter hy
          simpa using this
        exact ⟨isWs_upC_of hyw, upC_upC y⟩
      all_goals subst hx
      all_goals exact ⟨by decide, by decide⟩
    have hfilter : (normalizeEmployeeId s).filter (fun c => !isWs c) = normalizeEmployeeId s :=
      List.filter_eq_self.mpr (fun a ha => by simp [(hmem a ha).1])
    have hmap : (normalizeEmployeeId s).map upC = normalizeEmployeeId s :=
      map_self (fun a ha => (hmem a ha).2)
    rw [normalizeEmployeeId_eq (normalizeEmployeeId s), hfilter, hmap,
      normalizeEmployeeId_eq s, fixTypoU_fixTypoU]

theorem C9_normalization_witness :
    normalizeEmployeeId (jstr " lylb 7 ") = normalizeEmployeeId (jstr "LyLb7") ∧
    normalizeEmployeeId (normalizeEmployeeId (jstr "e 1")) = normalizeEmployeeId (jstr "e 1") :=
  ⟨(C9_normalization (jstr " lylb 7 ") (jstr "LyLb7")).1 (by decide),
   (C9_normalization (jstr "e 1") []).2⟩

/-! ### Claim C4: concrete working-hours scenarios -/

/-- A bare punch record for one employee on epoch day 0, used by the
concrete scenarios (name "N", id "E", no location, no distance). -/
def pe (ty : PunchType) (t : Int) : RawPunchRecord :=
  { name := jstr "N", employeeId := jstr "E", punchType := ty, location := [],
    timestamp := t, manualLocation := [], distanceMeters := none }

/-- C4: one employee whose window holds exactly In at 09:00 and Out at
17:00 totals exactly 8.0 working hours; In 09:00, Out 12:00, In 13:00,
Out 17:00 totals exactly 7.0 (two shifts, the lunch gap excluded). -/
theorem C4_working_hours :
    (calculateKPIs (processSheetData
        [pe PunchType.punchIn 32400000, pe PunchType.punchOut 61200000] 0)
      (some 0) 0).totalWorkingHoursToday = 8 ∧
    (calculateKPIs (processSheetData
        [pe PunchType.punchIn 32400000, pe PunchType.punchOut 43200000,
          pe PunchType.punchIn 46800000, pe PunchType.punchOut 61200000] 0)
      (some 0) 0).totalWorkingHoursToday = 7 := by
  refine ⟨?_, ?_⟩ <;>
  · simp +decide [calculateKPIs, processSheetData, List.mergeSort_of_sorted,
      calculateWorkingHours, groupByKey, upsertGroup, aget, formatDateKey, pairSum, findOut,
      pe, jsRound, countLateArrivals, punchMinutesOf, getHoursOf, getMinutesOf, lateThreshold]
    norm_num

/-! ### Claim C8: the empty window degrades to the zero KPI snapshot -/

/-- C8: a query window containing zero events yields 0 active employees,
0 total hours, 100 % on-site compliance and 0 exceptions (and the
generation timestamp), rather than failing. -/
theorem C8_empty_window (records : List RawPunchRecord) (d : Int) (now : Int)
    (h : ∀ r ∈ records, formatDateKey r.timestamp ≠ d) :
    calculateKPIs (processSheetData records now) (some d) now =
      { activeEmployeesCount := 0, totalWorkingHoursToday := 0, onSiteCompliancePct := 100,
        exceptionsCount := 0, serverTimestamp := now } := by
  have hday : (aget d (processSheetData records now).punchesByDate).getD [] = [] := by
    rw [show (processSheetData records now).punchesByDate =
        groupByKey (fun r => formatDateKey r.timestamp) (records.mergeSort leTime) from rfl,
      aget_groupByKey, List.filter_eq_nil_iff]
    intro a ha
    simp only [decide_eq_true_eq]
    exact h a (List.mem_mergeSort.mp ha)
  simp only [calculateKPIs, Option.getD_some, hday]
  simp [calculateWorkingHours, groupByKey, countLateArrivals, jsRound]
  norm_num

theorem C8_empty_window_witness :
    calculateKPIs (processSheetData [] 0) (some 0) 0 =
      { activeEmployeesCount := 0, totalWorkingHoursToday := 0, onSiteCompliancePct := 100,
        exceptionsCount := 0, serverTimestamp := 0 } :=
  C8_empty_window [] 0 0 (by simp)

/-! ### Claim C2: shift pairing invariants -/

theorem shiftScan_sound :
    ∀ {l : List RawPunchRecord},
      l.Pairwise (fun a b => a.timestamp ≤ b.timestamp) →
      ∀ s ∈ shiftScan l,
        (∀ e, s.shiftEnd = some e → s.shiftStart ≤ e) ∧
        (s.shiftEnd = none → s.durationMinutes = none) := by
  intro l
  induction l using shiftScan.induct with
  | case1 => intro _ s hs; simp [shiftScan] at hs
  | case2 p rest hIn q rest' hfind ih =>
    intro hp s hs
    rw [shiftScan, if_pos hIn, hfind] at hs
    obtain ⟨hpx, hprest⟩ := List.pairwise_cons.mp hp
    rcases List.mem_cons.mp hs with rfl | hs
    · constructor
      · intro e he
        have hq : q.timestamp = e := by simpa [mkShift] using he
        have hqmem : q ∈ rest := (findOut_sublist hfind).subset (List.mem_cons_self q rest')
        have := hpx q hqmem
        simp only [mkShift]
        omega
      · intro he
        simp [mkShift] at he
    · have hsub : List.Sublist rest' rest :=
        List.Sublist.trans (List.sublist_cons_self q rest') (findOut_sublist hfind)
      exact ih (List.Pairwise.sublist hsub hprest) s hs
  | case3 p rest hIn hfind ih =>
    intro hp s hs
    rw [shiftScan, if_pos hIn, hfind] at hs
    obtain ⟨hpx, hprest⟩ := List.pairwise_cons.mp hp
    rcases List.mem_cons.mp hs with rfl | hs
    · exact ⟨fun e he => by simp [mkShift] at he, fun _ => by simp [mkShift]⟩
    · exact ih hprest s hs
  | case4 p rest hIn ih =>
    intro hp s hs
    rw [shiftScan, if_neg hIn] at hs
    exact ih (List.pairwise_cons.mp hp).2 s hs

/-- C2: over the full pipeline, shift pairing never produces a closed
shift whose end timestamp is earlier than its start timestamp, and every
open shift (null `shiftEnd`) has a null `durationMinutes`. -/
theorem C2_shift_invariants (records : List RawPunchRecord) (eid : JStr)
    (sd ed : Option Int) (now0 now : Int) :
    ∀ s ∈ calculateEmployeeShifts (processSheetData records now0) eid sd ed now,
      (∀ e, s.shiftEnd = some e → s.shiftStart ≤ e) ∧
      (s.shiftEnd = none → s.durationMinutes = none) := by
  intro s hs
  simp only [calculateEmployeeShifts, List.mem_reverse] at hs
  refine shiftScan_sound ?_ s hs
  refine List.Pairwise.imp ?_ (List.sorted_mergeSort ?_ ?_ _)
  · intro a b hab
    simpa [leTime] using hab
  · intro a b c hab hbc
    simp only [leTime, decide_eq_true_eq] at *
    omega
  · intro a b
    simp only [leTime]
    by_cases h : a.timestamp ≤ b.timestamp <;> simp [h] <;> omega

theorem C2_shift_invariants_witness :
    (∀ e, (Shift.mk 32400000 (some 61200000) (some 480) none none false none).shiftEnd = some e →
      (Shift.mk 32400000 (some 61200000) (some 480) none none false none).shiftStart ≤ e) ∧
    ((Shift.mk 32400000 (some 61200000) (some 480) none none false none).shiftEnd = none →
      (Shift.mk 32400000 (some 61200000) (some 480) none none false none).durationMinutes =
        none) := by
  refine C2_shift_invariants [pe PunchType.punchIn 32400000, pe PunchType.punchOut 61200000]
    (jstr "E") none none 0 0 _ ?_
  have hev : calculateEmployeeShifts
      (processSheetData [pe PunchType.punchIn 32400000, pe PunchType.punchOut 61200000] 0)
      (jstr "E") none none 0 =
      [Shift.mk 32400000 (some 61200000) (some 480) none none false none] := by
    simp +decide [calculateEmployeeShifts, processSheetData, List.mergeSort_of_sorted,
      groupByKey, upsertGroup, aget, shiftScan, findOut, mkShift, pe, jsRound]
    norm_num
  rw [hev]
  simp

/-! ### Claim C7: rows with an empty name field are dropped -/

def c7values : List JStr :=
  [[], jstr "EMP1", jstr "Punch In", [], jstr "25/12/2024 09:00:00", [], []]

def c7map : ColumnMap :=
  { name := 0, employeeId := 1, punchType := 2, location := 3, timestamp := 4,
    manualLocation := 5, distance := 6 }

/-- C7 counterexample: a row carrying a valid employee identifier and a
parseable timestamp but an empty name field yields no event — `parseRow`
drops it, so the Normalizer cannot produce an event with an empty
`employeeName`. -/
theorem C7_counterexample :
    parseRow c7values c7map = none ∧
    normalizeEmployeeId (getField c7values c7map.employeeId) = jstr "EMP1" ∧
    parseTimestamp (getField c7values c7map.timestamp) = some 1735117200000 := by
  decide

/-- C7 amended: `parseRow` returns null for every row whose name field
is empty, and every row it keeps has a nonempty name field. -/
theorem C7_amended (values : List JStr) (cmap : ColumnMap) :
    (getField values cmap.name = [] → parseRow values cmap = none) ∧
    (∀ r, parseRow values cmap = some r → getField values cmap.name ≠ []) := by
  constructor
  · intro h
    simp [parseRow, h]
  · intro r hr hname
    simp [parseRow, hname] at hr

theorem C7_amended_witness : parseRow c7values c7map = none :=
  (C7_amended c7values c7map).1 (by decide)

/-! ### Claim C6: determinism of the derivations -/

/-- C6 counterexample: the exceptions derivation is not identical across
two runs at different instants: 7 h after an unmatched In it emits
nothing, 9 h after it emits an open-session exception, and exception
records carry no generation timestamp to excuse the difference. -/
theorem C6_counterexample :
    calculateExceptions (processSheetData [pe PunchType.punchIn 32400000] 0) (some 0) 57600000
      = [] ∧
    calculateExceptions (processSheetData [pe PunchType.punchIn 32400000] 0) (some 0) 64800000
      ≠ [] := by
  constructor <;>
  · simp +decide [calculateExceptions, processSheetData, List.mergeSort_of_sorted, groupByKey,
      upsertGroup, aget, empUpdate, employeeExceptions, lateExceptions, scanExceptions,
      breachExceptions, assignIds, findOut, hoursOpenAt, punchMinutesOf,
      getHoursOf, getMinutesOf, lateThreshold, pe, mkException, jsRound,
      CONFIG.OPEN_SESSION_WARNING_HOURS, CONFIG.OPEN_SESSION_CRITICAL_HOURS]
    norm_num [assignIdsFrom]

/-- C6 amended: with the event set and the query window fixed, re-running
a derivation at the same instant is deterministic, and every derivation
except the exceptions one is moreover independent of the instant — the
KPI snapshot up to its `serverTimestamp` field, the others outright. -/
theorem C6_amended (data : ProcessedData) (d : Int) (now1 now2 : Int) (limit : Nat)
    (eid : JStr) (sd : Option Int) (ed : Int) :
    (calculateKPIs data (some d) now1).activeEmployeesCount =
        (calculateKPIs data (some d) now2).activeEmployeesCount ∧
    (calculateKPIs data (some d) now1).totalWorkingHoursToday =
        (calculateKPIs data (some d) now2).totalWorkingHoursToday ∧
    (calculateKPIs data (some d) now1).onSiteCompliancePct =
        (calculateKPIs data (some d) now2).onSiteCompliancePct ∧
    (calculateKPIs data (some d) now1).exceptionsCount =
        (calculateKPIs data (some d) now2).exceptionsCount ∧
    calculateHourlyActivity data (some d) now1 = calculateHourlyActivity data (some d) now2 ∧
    calculateTopWorkload data (some d) now1 limit =
        calculateTopWorkload data (some d) now2 limit ∧
    calculateLatestLocations data = calculateLatestLocations data ∧
    calculateEmployeeShifts data eid sd (some ed) now1 =
        calculateEmployeeShifts data eid sd (some ed) now2 := by
  refine ⟨rfl, rfl, rfl, rfl, rfl, rfl, rfl, ?_⟩
  rcases sd with _ | s <;> rfl

/-! ### Claim C10: the closed set of emitted exception types -/

/-- C10: every emitted exception has type OpenSession, PunchOutWithoutIn
or LocationBreach — late arrivals are emitted with the reused type
OpenSession, and LocationMissing is never emitted. -/
theorem C10_exception_types (records : List RawPunchRecord) (now0 : Int) (d : Option Int)
    (now : Int) :
    ∀ x ∈ calculateExceptions (processSheetData records now0) d now,
      (x.type = ExceptionType.OpenSession ∨ x.type = ExceptionType.PunchOutWithoutIn ∨
        x.type = ExceptionType.LocationBreach) ∧ x.type ≠ ExceptionType.LocationMissing := by
  intro x hx
  simp only [calculateExceptions, assignIds] at hx
  rw [List.mem_mergeSort] at hx
  rcases mem_assignIdsFrom hx with ⟨y, hy, j, rfl⟩
  rcases List.mem_flatten.mp hy with ⟨sub, hsub, hysub⟩
  rcases List.mem_map.mp hsub with ⟨kg, _, rfl⟩
  have ht := (mem_employeeExceptions hysub).2
  refine ⟨by simpa using ht, ?_⟩
  rcases ht with h | h | h <;> simp [h]

def c10rec : RawPunchRecord :=
  { name := jstr "N", employeeId := jstr "E", punchType := PunchType.punchOut,
    location := [], timestamp := 36000000, manualLocation := jstr "Site",
    distanceMeters := none }

def c10exc : ExceptionRec :=
  { id := 1, employeeId := jstr "E", name := jstr "N",
    type := ExceptionType.PunchOutWithoutIn, severity := ExceptionSeverity.warning,
    status := ExceptionStatus.statusOpen, timestamp := 36000000,
    locationText := jstr "Site", distance := none,
    notes := ExceptionNote.punchOutWithoutIn }

theorem C10_exception_types_witness :
    c10exc ∈ calculateExceptions (processSheetData [c10rec] 0) (some 0) 0 ∧
    (c10exc.type = ExceptionType.OpenSession ∨ c10exc.type = ExceptionType.PunchOutWithoutIn ∨
      c10exc.type = ExceptionType.LocationBreach) ∧
    c10exc.type ≠ ExceptionType.LocationMissing := by
  have hmem : c10exc ∈ calculateExceptions (processSheetData [c10rec] 0) (some 0) 0 := by
    have hev : calculateExceptions (processSheetData [c10rec] 0) (some 0) 0 = [c10exc] := by
      simp +decide [calculateExceptions, processSheetData, List.mergeSort_of_sorted, groupByKey,
        upsertGroup, aget, empUpdate, employeeExceptions, lateExceptions, scanExceptions,
        breachExceptions, assignIds, assignIdsFrom, findOut, hoursOpenAt, punchMinutesOf,
        getHoursOf, getMinutesOf, lateThreshold, c10rec, c10exc, mkException, jsRound]
    rw [hev]
    simp
  exact ⟨hmem, (C10_exception_types [c10rec] 0 (some 0) 0 c10exc hmem).1,
    (C10_exception_types [c10rec] 0 (some 0) 0 c10exc hmem).2⟩

/-! ### Claim C1: top-workload ordering, length and determinism -/

def c1a : RawPunchRecord :=
  { name := jstr "A", employeeId := jstr "A", punchType := PunchType.punchIn,
    location := [], timestamp := 36000000, manualLocation := [], distanceMeters := none }

def c1b : RawPunchRecord :=
  { name := jstr "B", employeeId := jstr "B", punchType := PunchType.punchIn,
    location := [], timestamp := 36000000, manualLocation := [], distanceMeters := none }

/-- C1 counterexample: two employees punching In at the same instant.
Swapping the two input rows swaps the two zero-hour entries of the
output, so the output is not invariant under reordering of the input,
ties are not broken by employee id (B precedes A in the second run), and
the output has an entry for every employee with a punch even when no
hours were paired. -/
theorem C1_counterexample :
    calculateTopWorkload (processSheetData [c1a, c1b] 0) (some 0) 0 10 =
      [{ employeeId := jstr "A", name := jstr "A", totalHours := 0 },
       { employeeId := jstr "B", name := jstr "B", totalHours := 0 }] ∧
    calculateTopWorkload (processSheetData [c1b, c1a] 0) (some 0) 0 10 =
      [{ employeeId := jstr "B", name := jstr "B", totalHours := 0 },
       { employeeId := jstr "A", name := jstr "A", totalHours := 0 }] ∧
    calculateTopWorkload (processSheetData [c1a, c1b] 0) (some 0) 0 10 ≠
      calculateTopWorkload (processSheetData [c1b, c1a] 0) (some 0) 0 10 := by
  refine ⟨?_, ?_, ?_⟩
  · simp +decide [calculateTopWorkload, processSheetData, List.mergeSort_of_sorted, groupByKey,
      upsertGroup, aget, empUpdate, calculateWorkingHours, pairSum, findOut, jsRound,
      formatDateKey, c1a, c1b, workloadLe]
    norm_num
  · simp +decide [calculateTopWorkload, processSheetData, List.mergeSort_of_sorted, groupByKey,
      upsertGroup, aget, empUpdate, calculateWorkingHours, pairSum, findOut, jsRound,
      formatDateKey, c1a, c1b, workloadLe]
    norm_num
  · simp +decide [calculateTopWorkload, processSheetData, List.mergeSort_of_sorted, groupByKey,
      upsertGroup, aget, empUpdate, calculateWorkingHours, pairSum, findOut, jsRound,
      formatDateKey, c1a, c1b, workloadLe]

/-- The chronological sort yields a list sorted by timestamp. -/
theorem mergeSort_time_sorted (l : List RawPunchRecord) :
    (l.mergeSort leTime).Pairwise (fun a b => a.timestamp ≤ b.timestamp) := by
  refine List.Pairwise.imp ?_ (List.sorted_mergeSort ?_ ?_ l)
  · intro a b hab
    simpa [leTime] using hab
  · intro a b c hab hbc
    simp only [leTime, decide_eq_true_eq] at *
    omega
  · intro a b
    simp only [leTime]
    by_cases h : a.timestamp ≤ b.timestamp <;> simp [h] <;> omega

/-- Two sorted permutations of each other with pairwise distinct
timestamps are equal. -/
theorem eq_of_perm_sorted_nodup_ts :
    ∀ {l₁ l₂ : List RawPunchRecord}, l₁.Perm l₂ →
      l₁.Pairwise (fun a b => a.timestamp ≤ b.timestamp) →
      l₂.Pairwise (fun a b => a.timestamp ≤ b.timestamp) →
      (l₁.map (fun r => r.timestamp)).Nodup → l₁ = l₂ := by
  intro l₁
  induction l₁ with
  | nil =>
    intro l₂ h _ _ _
    exact (h.symm.eq_nil).symm
  | cons x t₁ ih =>
    intro l₂ h hp1 hp2 hnd
    rcases l₂ with _ | ⟨y, t₂⟩
    · exact absurd h.eq_nil (by simp)
    · by_cases hxy : x = y
      · subst hxy
        obtain ⟨_, hp1t⟩ := List.pairwise_cons.mp hp1
        obtain ⟨_, hp2t⟩ := List.pairwise_cons.mp hp2
        rw [ih h.cons_inv hp1t hp2t (by simpa using (List.nodup_cons.mp (by simpa using hnd)).2)]
      · exfalso
        have hx2 : x ∈ t₂ := by
          rcases List.mem_cons.mp (h.subset (List.mem_cons_self x t₁)) with h' | h'
          · exact absurd h' hxy
          · exact h'
        have hy1 : y ∈ t₁ := by
          rcases List.mem_cons.mp (h.symm.subset (List.mem_cons_self y t₂)) with h' | h'
          · exact absurd h'.symm hxy
          · exact h'
        have h1 : x.timestamp ≤ y.timestamp := (List.pairwise_cons.mp hp1).1 y hy1
        have h2 : y.timestamp ≤ x.timestamp := (List.pairwise_cons.mp hp2).1 x hx2
        have hts : x.timestamp = y.timestamp := le_antisymm h1 h2
        have : x.timestamp ∉ t₁.map (fun r => r.timestamp) :=
          (List.nodup_cons.mp (by simpa using hnd)).1
        exact this (hts ▸ List.mem_map.mpr ⟨y, hy1, rfl⟩)

theorem keys_foldl_upsertGroup_subset {κ α : Type} [DecidableEq κ] (key : α → κ) :
    ∀ (l : List α) (acc : List (κ × List α)) (k : κ),
      k ∈ (l.foldl (fun acc r => upsertGroup (key r) r acc) acc).map Prod.fst →
      k ∈ acc.map Prod.fst ∨ k ∈ l.map key
  | [], acc, k => fun hk => Or.inl hk
  | x :: t, acc, k => fun hk => by
    rcases keys_foldl_upsertGroup_subset key t _ k hk with h | h
    · rw [keys_upsertGroup] at h
      by_cases hm : key x ∈ acc.map Prod.fst
      · rw [if_pos hm] at h
        exact Or.inl h
      · rw [if_neg hm] at h
        rcases List.mem_append.mp h with h | h
        · exact Or.inl h
        · rcases List.mem_singleton.mp h with rfl
          exact Or.inr (by simp)
    · exact Or.inr (by simp [h])

theorem keys_groupByKey_subset {κ α : Type} [DecidableEq κ] {key : α → κ} {l : List α}
    {k : κ} (hk : k ∈ (groupByKey key l).map Prod.fst) : k ∈ l.map key := by
  rcases keys_foldl_upsertGroup_subset key l [] k hk with h | h
  · simp at h
  · exact h

/-- C1 amended: the top-workload output is sorted in descending order of
total hours with ties kept in stable first-appearance order; its length
is min(limit, number of distinct employees with at least one punch in
the window); and reordering the input event list does not change the
output provided the event timestamps are pairwise distinct. -/
theorem C1_amended (records : List RawPunchRecord) (d now : Int) (limit : Nat) :
    (calculateTopWorkload (processSheetData records now) (some d) now limit).Pairwise
      (fun a b => b.totalHours ≤ a.totalHours) ∧
    (calculateTopWorkload (processSheetData records now) (some d) now limit).length =
      min limit
        (((records.filter (fun r => decide (formatDateKey r.timestamp = d))).map
          (fun r => r.employeeId)).dedup.length) ∧
    (∀ records' : List RawPunchRecord, records.Perm records' →
      (records.map (fun r => r.timestamp)).Nodup →
      calculateTopWorkload (processSheetData records' now) (some d) now limit =
        calculateTopWorkload (processSheetData records now) (some d) now limit) := by
  refine ⟨?_, ?_, ?_⟩
  · simp only [calculateTopWorkload]
    refine List.Pairwise.sublist (List.take_sublist _ _) ?_
    refine List.Pairwise.imp ?_ (List.sorted_mergeSort ?_ ?_ _)
    · intro a b hab
      simp only [workloadLe, decide_eq_true_eq] at hab
      linarith
    · intro a b c hab hbc
      simp only [workloadLe, decide_eq_true_eq] at *
      linarith
    · intro a b
      simp only [workloadLe]
      by_cases h : b.totalHours - a.totalHours ≤ 0
      · simp [h]
      · have h' : a.totalHours - b.totalHours ≤ 0 := by linarith
        simp [h, h']
  · simp only [calculateTopWorkload, Option.getD_some]
    rw [List.length_take, List.length_mergeSort, length_filterMap_of_some, length_groupByKey]
    · congr 1
      rw [show (processSheetData records now).punchesByDate =
          groupByKey (fun r => formatDateKey r.timestamp) (records.mergeSort leTime) from rfl,
        aget_groupByKey]
      exact (((List.mergeSort_perm records leTime).filter _).map _).dedup.length_eq
    · intro kg hkg
      rw [Option.isSome_map']
      have hkey : kg.1 ∈ ((aget d (processSheetData records now).punchesByDate).getD []).map
          (fun p => p.employeeId) :=
        keys_groupByKey_subset (List.mem_map.mpr ⟨kg, hkg, rfl⟩)
      rcases List.mem_map.mp hkey with ⟨x, hx, hxeq⟩
      rw [show (processSheetData records now).punchesByDate =
          groupByKey (fun r => formatDateKey r.timestamp) (records.mergeSort leTime) from rfl,
        aget_groupByKey] at hx
      rw [← hxeq]
      exact aget_employees_of_mem _ [] x (List.mem_of_mem_filter hx)
  · intro records' hperm hnd
    have hms : records'.mergeSort leTime = records.mergeSort leTime := by
      apply eq_of_perm_sorted_nodup_ts
      · exact (List.mergeSort_perm records' leTime).trans
          (hperm.symm.trans (List.mergeSort_perm records leTime).symm)
      · exact mergeSort_time_sorted records'
      · exact mergeSort_time_sorted records
      · exact List.Perm.nodup
          ((hperm.trans (List.mergeSort_perm records' leTime).symm).map _) hnd
    have hdata : processSheetData records' now = processSheetData records now := by
      unfold processSheetData
      rw [hms]
    rw [hdata]

theorem C1_amended_witness :
    (calculateTopWorkload (processSheetData
        [pe PunchType.punchIn 32400000, pe PunchType.punchOut 61200000] 0)
      (some 0) 0 10).Pairwise (fun a b => b.totalHours ≤ a.totalHours) ∧
    (calculateTopWorkload (processSheetData
        [pe PunchType.punchIn 32400000, pe PunchType.punchOut 61200000] 0)
      (some 0) 0 10).length =
      min 10
        ((([pe PunchType.punchIn 32400000, pe PunchType.punchOut 61200000].filter
          (fun r => decide (formatDateKey r.timestamp = 0))).map
          (fun r => r.employeeId)).dedup.length) ∧
    calculateTopWorkload (processSheetData
        [pe PunchType.punchOut 61200000, pe PunchType.punchIn 32400000] 0)
      (some 0) 0 10 =
      calculateTopWorkload (processSheetData
        [pe PunchType.punchIn 32400000, pe PunchType.punchOut 61200000] 0)
      (some 0) 0 10 :=
  ⟨(C1_amended [pe PunchType.punchIn 32400000, pe PunchType.punchOut 61200000] 0 0 10).1,
   (C1_amended [pe PunchType.punchIn 32400000, pe PunchType.punchOut 61200000] 0 0 10).2.1,
   (C1_amended [pe PunchType.punchIn 32400000, pe PunchType.punchOut 61200000] 0 0 10).2.2
     [pe PunchType.punchOut 61200000, pe PunchType.punchIn 32400000]
     (by decide) (by decide)⟩

/-! ### Claim C5: the open-session rule -/

def c5rec : RawPunchRecord :=
  { name := jstr "N", employeeId := jstr "E", punchType := PunchType.punchIn,
    location := [], timestamp := 39600000, manualLocation := [], distanceMeters := none }

/-- C5 counterexample: an employee whose only event is an unmatched In
at 11:00, evaluated 13 hours later.  The In is past the critical
threshold, but because the late-arrival rule reuses the `'OpenSession'`
type, the engine emits two critical OpenSession exceptions for that
employee, not exactly one. -/
theorem C5_counterexample :
    (calculateExceptions (processSheetData [c5rec] 0) (some 0) 86400000).countP
      (fun x => decide (x.employeeId = jstr "E" ∧ x.type = ExceptionType.OpenSession ∧
        x.severity = ExceptionSeverity.critical)) = 2 := by
  simp +decide [calculateExceptions, processSheetData, List.mergeSort_of_sorted, groupByKey,
    upsertGroup, aget, empUpdate, employeeExceptions, lateExceptions, scanExceptions,
    breachExceptions, assignIds, findOut, hoursOpenAt, punchMinutesOf,
    getHoursOf, getMinutesOf, lateThreshold, c5rec, mkException, jsRound, excLe,
    CONFIG.OPEN_SESSION_WARNING_HOURS, CONFIG.OPEN_SESSION_CRITICAL_HOURS,
    CONFIG.WORK_START_HOUR, CONFIG.WORK_START_MINUTE, CONFIG.LATE_GRACE_PERIOD_MINUTES]
  rw [List.Perm.countP_eq _ (List.mergeSort_perm _ _)]
  norm_num [assignIdsFrom, List.countP_cons]

theorem mem_of_aget {κ α : Type} [DecidableEq κ] :
    ∀ {m : List (κ × α)} {k : κ} {g : α}, aget k m = some g → (k, g) ∈ m := by
  intro m
  induction m with
  | nil => intro k g h; simp [aget] at h
  | cons kv rest ih =>
    obtain ⟨k', v⟩ := kv
    intro k g h
    by_cases hk : k = k'
    · subst hk
      rw [show aget k ((k, v) :: rest) = some v from by simp [aget]] at h
      obtain rfl : v = g := by injection h
      exact List.mem_cons_self _ _
    · simp only [aget, if_neg hk] at h
      exact List.mem_cons_of_mem _ (ih h)

theorem countP_flatten_zero (e : JStr) :
    ∀ (L : List (JStr × List RawPunchRecord))
      (f : JStr × List RawPunchRecord → List ExceptionRec),
      (∀ kg ∈ L, ∀ x ∈ f kg, x.employeeId = kg.1) → e ∉ L.map Prod.fst →
      ((L.map f).flatten.countP (fun x => decide (x.employeeId = e))) = 0
  | [], _, _, _ => rfl
  | kg :: rest, f, hf, he => by
    rw [List.map_cons, List.flatten_cons, List.countP_append,
      countP_flatten_zero e rest f (fun kg' h => hf kg' (List.mem_cons_of_mem kg h))
        (fun h => he (by simp [h]))]
    rw [Nat.add_zero]
    rw [List.countP_eq_zero]
    intro x hx
    have := hf kg (List.mem_cons_self kg rest) x hx
    simp only [decide_eq_true_eq, this]
    intro hh
    exact he (by simp [← hh])

/-- The count of the exceptions carrying key `e` in the flattened
per-employee emissions is the emission length of `e`'s group. -/
theorem countP_flatten_by_key (e : JStr) :
    ∀ (L : List (JStr × List RawPunchRecord))
      (f : JStr × List RawPunchRecord → List ExceptionRec),
      (L.map Prod.fst).Nodup →
      (∀ kg ∈ L, ∀ x ∈ f kg, x.employeeId = kg.1) →
      ((L.map f).flatten.countP (fun x => decide (x.employeeId = e))) =
        (match aget e L with
         | some g => (f (e, g)).length
         | none => 0)
  | [], _, _, _ => rfl
  | (k, g) :: rest, f, hnd, hf => by
    rw [List.map_cons, List.flatten_cons, List.countP_append]
    rw [List.map_cons, List.nodup_cons] at hnd
    obtain ⟨hk_not, hnd'⟩ := hnd
    by_cases he : e = k
    · subst he
      rw [show aget e ((e, g) :: rest) = some g from by simp [aget]]
      rw [countP_flatten_zero e rest f
        (fun kg' h => hf kg' (List.mem_cons_of_mem _ h)) hk_not]
      rw [Nat.add_zero]
      rw [List.countP_eq_length.mpr]
      intro x hx
      simp [hf (e, g) (List.mem_cons_self _ _) x hx]
    · rw [show aget e ((k, g) :: rest) = aget e rest from by simp [aget, he]]
      rw [countP_flatten_by_key e rest f hnd'
        (fun kg' h => hf kg' (List.mem_cons_of_mem _ h))]
      rw [List.countP_eq_zero.mpr, Nat.zero_add]
      intro x hx
      have := hf (k, g) (List.mem_cons_self _ _) x hx
      simp only [decide_eq_true_eq, this]
      exact fun hh => he hh.symm

/-- C5 amended: for an employee whose query window contains exactly one
unmatched In that is not a late arrival and carries no distance, the
open-session rule emits nothing while the elapsed time to now is below
the warning threshold, and exactly one OpenSession exception of severity
critical is emitted once the elapsed time reaches the critical
threshold.  (The restriction to a non-late In is forced: the
late-arrival rule also emits an OpenSession-typed exception, so a late
unmatched In past the critical threshold yields two.) -/
theorem C5_amended (records : List RawPunchRecord) (now0 d now : Int) (e : JStr)
    (r : RawPunchRecord)
    (hgroup : aget e (groupByKey (fun p => p.employeeId)
        ((aget d (processSheetData records now0).punchesByDate).getD [])) = some [r])
    (hIn : r.punchType = PunchType.punchIn)
    (hNotLate : ¬punchMinutesOf r.timestamp > lateThreshold)
    (hDist : r.distanceMeters = none) :
    (hoursOpenAt now r.timestamp < CONFIG.OPEN_SESSION_WARNING_HOURS →
      (calculateExceptions (processSheetData records now0) (some d) now).countP
        (fun x => decide (x.employeeId = e)) = 0) ∧
    (CONFIG.OPEN_SESSION_CRITICAL_HOURS ≤ hoursOpenAt now r.timestamp →
      (calculateExceptions (processSheetData records now0) (some d) now).countP
        (fun x => decide (x.employeeId = e)) = 1 ∧
      ∀ x ∈ calculateExceptions (processSheetData records now0) (some d) now,
        x.employeeId = e →
          x.type = ExceptionType.OpenSession ∧
          x.severity = ExceptionSeverity.critical) := by
  have hr_mem := mem_of_aget_groupByKey hgroup r (List.mem_cons_self r [])
  have hr_sorted : r ∈ records.mergeSort leTime := by
    have h1 := hr_mem.1
    rw [show (processSheetData records now0).punchesByDate =
        groupByKey (fun r => formatDateKey r.timestamp) (records.mergeSort leTime) from rfl,
      aget_groupByKey] at h1
    exact List.mem_of_mem_filter h1
  obtain ⟨nm, hnm⟩ : ∃ nm, aget e (processSheetData records now0).employees = some nm := by
    have h1 : (aget r.employeeId (processSheetData records now0).employees).isSome :=
      aget_employees_of_mem _ [] r hr_sorted
    rw [hr_mem.2] at h1
    exact Option.isSome_iff_exists.mp h1
  have hlate : lateExceptions e nm [r] = [] := by
    unfold lateExceptions
    rw [show List.find? (fun p => decide (p.punchType = PunchType.punchIn)) [r] = some r from by
      simp [List.find?_cons, hIn]]
    dsimp only
    rw [if_neg hNotLate]
  have hbreach : breachExceptions e nm [r] = [] := by
    unfold breachExceptions
    rw [show List.filter (fun p =>
        match p.distanceMeters with
        | some d => decide (CONFIG.DISTANCE_THRESHOLD_WARNING < d)
        | none => false) [r] = [] from by simp [List.filter_cons, hDist]]
    rfl
  have hscan : scanExceptions e nm now false [r] =
      if CONFIG.OPEN_SESSION_WARNING_HOURS ≤ hoursOpenAt now r.timestamp then
        [mkException e nm ExceptionType.OpenSession
          (if CONFIG.OPEN_SESSION_CRITICAL_HOURS ≤ hoursOpenAt now r.timestamp then
            ExceptionSeverity.critical
          else ExceptionSeverity.warning)
          r (ExceptionNote.openSession (jsRound (hoursOpenAt now r.timestamp)))]
      else [] := by
    rw [scanExceptions, if_pos hIn]
    rw [show findOut ([] : List RawPunchRecord) = none from rfl]
    dsimp only
    rw [show scanExceptions e nm now true [] = [] from by rw [scanExceptions]]
    rw [List.append_nil]
  have hemit : employeeExceptions (processSheetData records now0) now (e, [r]) =
      if CONFIG.OPEN_SESSION_WARNING_HOURS ≤ hoursOpenAt now r.timestamp then
        [mkException e nm ExceptionType.OpenSession
          (if CONFIG.OPEN_SESSION_CRITICAL_HOURS ≤ hoursOpenAt now r.timestamp then
            ExceptionSeverity.critical
          else ExceptionSeverity.warning)
          r (ExceptionNote.openSession (jsRound (hoursOpenAt now r.timestamp)))]
      else [] := by
    unfold employeeExceptions
    rw [hnm]
    dsimp only
    rw [List.mergeSort_singleton, hlate, hscan, hbreach]
    rw [List.nil_append, List.append_nil]
  have hkeycount :
      (calculateExceptions (processSheetData records now0) (some d) now).countP
        (fun x => decide (x.employeeId = e)) =
      (employeeExceptions (processSheetData records now0) now (e, [r])).length := by
    simp only [calculateExceptions, assignIds, Option.getD_some]
    rw [List.Perm.countP_eq _ (List.mergeSort_perm _ _)]
    rw [countP_assignIdsFrom (fun x => decide (x.employeeId = e)) (fun y j => rfl)]
    rw [countP_flatten_by_key e _ _ (nodup_keys_groupByKey _ _)
      (fun kg hkg x hx => (mem_employeeExceptions hx).1)]
    rw [hgroup]
  constructor
  · intro hlt
    rw [hkeycount, hemit, if_neg (not_le.mpr hlt)]
    rfl
  · intro hge
    have hge8 : CONFIG.OPEN_SESSION_WARNING_HOURS ≤ hoursOpenAt now r.timestamp := by
      refine le_trans ?_ hge
      norm_num [CONFIG.OPEN_SESSION_WARNING_HOURS, CONFIG.OPEN_SESSION_CRITICAL_HOURS]
    refine ⟨by rw [hkeycount, hemit, if_pos hge8]; rfl, ?_⟩
    intro x hx hxe
    simp only [calculateExceptions, assignIds, Option.getD_some] at hx
    rw [List.mem_mergeSort] at hx
    rcases mem_assignIdsFrom hx with ⟨y, hy, j, rfl⟩
    rcases List.mem_flatten.mp hy with ⟨sub, hsub, hysub⟩
    rcases List.mem_map.mp hsub with ⟨kg, hkg, rfl⟩
    have hid : y.employeeId = kg.1 := (mem_employeeExceptions hysub).1
    have hxid : y.employeeId = e := hxe
    obtain ⟨k1, k2⟩ := kg
    have hk1 : k1 = e := hid.symm.trans hxid
    subst hk1
    have hag : aget k1 (groupByKey (fun p => p.employeeId)
        ((aget d (processSheetData records now0).punchesByDate).getD [])) = some k2 :=
      aget_of_mem_nodup (nodup_keys_groupByKey _ _) hkg
    have hk2 : k2 = [r] := by
      have := hag.symm.trans hgroup
      injection this
    subst hk2
    rw [hemit, if_pos hge8] at hysub
    rcases List.mem_singleton.mp hysub with rfl
    exact ⟨rfl, by simp [mkException, if_pos hge]⟩

theorem C5_amended_witness :
    ((calculateExceptions (processSheetData [pe PunchType.punchIn 32400000] 0) (some 0)
        50000000).countP (fun x => decide (x.employeeId = jstr "E")) = 0) ∧
    ((calculateExceptions (processSheetData [pe PunchType.punchIn 32400000] 0) (some 0)
        86400000).countP (fun x => decide (x.employeeId = jstr "E")) = 1) := by
  have hgroup : aget (jstr "E") (groupByKey (fun p => p.employeeId)
      ((aget 0 (processSheetData [pe PunchType.punchIn 32400000] 0).punchesByDate).getD [])) =
      some [pe PunchType.punchIn 32400000] := by
    simp +decide [processSheetData, groupByKey, upsertGroup, aget, formatDateKey, pe]
  constructor
  · exact (C5_amended [pe PunchType.punchIn 32400000] 0 0 50000000 (jstr "E")
      (pe PunchType.punchIn 32400000) hgroup rfl (by decide) rfl).1
      (by norm_num [hoursOpenAt, pe, CONFIG.OPEN_SESSION_WARNING_HOURS])
  · exact ((C5_amended [pe PunchType.punchIn 32400000] 0 0 86400000 (jstr "E")
      (pe PunchType.punchIn 32400000) hgroup rfl (by decide) rfl).2
      (by norm_num [hoursOpenAt, pe, CONFIG.OPEN_SESSION_CRITICAL_HOURS])).1
